import Mathlib

set_option maxHeartbeats 1000000
set_option maxRecDepth 4000

/-!
Shallow embedding of `font.go` from the `gltext` repository.

Modelling conventions:
* Go `float32` arithmetic is modelled by exact rational arithmetic (`ℚ`);
  `int32` and `rune` by `Int`; `uint32` by `Nat` reduced `% 2 ^ 32` where Go
  wraps.
* The truetype font and the freetype rasterizer are external collaborators
  (black boxes): a font supplies `Bounds`, `Index` and `HMetric`; the
  rasterizer (`c.DrawString`) only writes pixels into the atlas bitmap, and no
  property below inspects pixels, so the bitmap is modelled by its dimensions.
* Calls into the `gl` binding made by `Printf` and `Delete` are modelled as an
  ordered trace of emitted GL commands; a Go runtime panic (out-of-bounds
  slice access) is modelled by returning `none`.
-/

namespace Gltext

/-! ## Definitions -/

/-- OpenGL enum `gl.TRIANGLE_STRIP`. -/
def TRIANGLE_STRIP : Nat := 0x0005

/-- OpenGL enum `gl.SRC_ALPHA`. -/
def SRC_ALPHA : Nat := 0x0302

/-- OpenGL enum `gl.ONE_MINUS_SRC_ALPHA`. -/
def ONE_MINUS_SRC_ALPHA : Nat := 0x0303

/-- OpenGL enum `gl.BLEND`. -/
def BLEND : Nat := 0x0BE2

/-- `type Vector4 [4]float32` (font.go line 28).  The four components hold
clip-space x, y in the first two slots and texture coordinates u, v in the
last two. -/
structure Vector4 where
  x : ℚ
  y : ℚ
  z : ℚ
  w : ℚ
deriving DecidableEq, Repr

/-- `truetype.Bounds` as returned by `font.Bounds(scale)`: the font's glyph
bounding box at a scale, in (already scaled) font units. -/
structure Bounds where
  xMin : Int
  yMin : Int
  xMax : Int
  yMax : Int

/-- The `*truetype.Font` black box: only the three queries `generateAtlas`
makes of it.  `bounds scale` is `font.Bounds(scale)`, `index ch` is
`font.Index(ch)`, and `hmetricAdvanceWidth scale idx` is
`font.HMetric(scale, idx).AdvanceWidth`. -/
structure TTFont where
  bounds : Int → Bounds
  index : Nat → Nat
  hmetricAdvanceWidth : Int → Nat → Int

/-- The value of a Go `uint32`: reduction modulo `2 ^ 32`. -/
def u32 (x : Nat) : Nat := x % 2 ^ 32

/-- `glh.Pow2` from the go-gl/glh dependency (an external collaborator with
fixed, well-known code): round a `uint32` up to the next power of two by
decrementing, smearing the highest set bit rightwards with five or-shifts,
and incrementing.  Go's `x--` on `uint32` wraps at 0, hence the `u32`. -/
def pow2 (x : Nat) : Nat :=
  let x1 := u32 (x + (2 ^ 32 - 1))
  let x2 := x1 ||| (x1 >>> 1)
  let x3 := x2 ||| (x2 >>> 2)
  let x4 := x3 ||| (x3 >>> 4)
  let x5 := x4 ||| (x4 >>> 8)
  let x6 := x5 ||| (x5 >>> 16)
  u32 (x6 + 1)

/-- The or-shift cascade inside `pow2`, factored out for reasoning.
`pow2 x` is definitionally `u32 (smear (u32 (x + (2^32 - 1))) + 1)`. -/
def smear (y : Nat) : Nat :=
  let x2 := y ||| (y >>> 1)
  let x3 := x2 ||| (x2 >>> 2)
  let x4 := x3 ||| (x3 >>> 4)
  let x5 := x4 ||| (x4 >>> 8)
  x5 ||| (x5 >>> 16)

/-- Go conversion `uint32(f)` of a non-negative in-range `float32` value:
truncation toward zero (for non-negative values, the floor).  Out-of-range
conversions are implementation-defined in Go and are not exercised by any
property below. -/
def toUint32 (q : ℚ) : Nat := q.floor.toNat

/-- `var low rune = 32` (font.go line 95). -/
def glyphLow : Nat := 32

/-- `var high rune = 127` (font.go line 96). -/
def glyphHigh : Nat := 127

/-- `glyphCount := int32(high-low+1)` (font.go line 97). -/
def glyphCount : Nat := glyphHigh - glyphLow + 1

/-- Result of `generateAtlas`: the vertex slice, the atlas bitmap (modelled by
its dimensions, which is all any property reads of it), and the advance
table. -/
structure Atlas where
  verts : List Vector4
  imageWidth : Nat
  imageHeight : Nat
  offsets : List ℚ
deriving DecidableEq

/-- One iteration of the glyph loop in `generateAtlas` (font.go lines
125–150).  The accumulator carries the vertex list, the advance table written
so far, and the pen position `gx`; `gy` stays `0` throughout, as in the
source.  The Go code writes slot `gi` of a pre-allocated `offsets` array, with
`gi` incremented once per iteration in lockstep, so the write is embedded as
an append. -/
def atlasStep (font : TTFont) (scale : Int) (sx gw gh w h texWidth texHeight : ℚ)
    (acc : List Vector4 × List ℚ × ℚ) (ch : Nat) : List Vector4 × List ℚ × ℚ :=
  let verts := acc.1
  let offsets := acc.2.1
  let gx := acc.2.2
  let index := font.index ch
  let metric := font.hmetricAdvanceWidth scale index
  let gy : ℚ := 0
  let tx1 := gx / texWidth
  let ty1 := gy / texHeight
  let tx2 := (gx + gw) / texWidth
  let ty2 := (gy + gh) / texHeight
  (verts ++ [⟨-1, 1, tx1, ty1⟩, ⟨-1 + w, 1, tx2, ty1⟩,
             ⟨-1, 1 - h, tx1, ty2⟩, ⟨-1 + w, 1 - h, tx2, ty2⟩],
   offsets ++ [(metric : ℚ) * sx], gx + gw)

/-- `generateAtlas` (font.go lines 94–152).  `dpi` is consumed only by the
freetype rasterization context (`c.SetDPI(dpi)`), which affects the bitmap's
pixels, never its dimensions nor the vertices or offsets. -/
def generateAtlas (font : TTFont) (scale : Int) (dpi : ℚ) (width height : ℚ) : Atlas :=
  let bounds := font.bounds scale
  let gw : ℚ := ((bounds.xMax - bounds.xMin : Int) : ℚ)
  let gh : ℚ := ((bounds.yMax - bounds.yMin : Int) : ℚ)
  let imageWidth := pow2 (toUint32 (gw * (glyphCount : ℚ)))
  let imageHeight := pow2 (toUint32 gh)
  let sx : ℚ := 2 / width
  let sy : ℚ := 2 / height
  let w := gw * sx
  let h := gh * sy
  let _ := dpi
  let texWidth : ℚ := (imageWidth : ℚ)
  let texHeight : ℚ := (imageHeight : ℚ)
  let res := (List.range' glyphLow glyphCount).foldl
      (atlasStep font scale sx gw gh w h texWidth texHeight) ([], [], 0)
  ⟨res.1, imageWidth, imageHeight, res.2.1⟩

/-- The four vertices emitted for a glyph whose cell starts at pen position
`gx` (the loop body's `verts = append(...)`, font.go lines 143–146). -/
def quadAt (gw gh w h texWidth texHeight : ℚ) (gx : ℚ) : List Vector4 :=
  [⟨-1, 1, gx / texWidth, 0 / texHeight⟩,
   ⟨-1 + w, 1, (gx + gw) / texWidth, 0 / texHeight⟩,
   ⟨-1, 1 - h, gx / texWidth, (0 + gh) / texHeight⟩,
   ⟨-1 + w, 1 - h, (gx + gw) / texWidth, (0 + gh) / texHeight⟩]

/-- The advance-table entry recorded for character `ch` (font.go line 130). -/
def glyphAdvance (font : TTFont) (scale : Int) (sx : ℚ) (ch : Nat) : ℚ :=
  (font.hmetricAdvanceWidth scale (font.index ch) : ℚ) * sx

/-- `gw` of `generateAtlas` (font.go line 101): the uniform glyph-cell width
in pixels at the given scale. -/
def gwOf (font : TTFont) (scale : Int) : ℚ :=
  (((font.bounds scale).xMax - (font.bounds scale).xMin : Int) : ℚ)

/-- `gh` of `generateAtlas` (font.go line 102): the uniform glyph-cell height
in pixels at the given scale. -/
def ghOf (font : TTFont) (scale : Int) : ℚ :=
  (((font.bounds scale).yMax - (font.bounds scale).yMin : Int) : ℚ)

/-- `imageWidth` of `generateAtlas` (font.go line 103). -/
def imageWidthOf (font : TTFont) (scale : Int) : Nat :=
  pow2 (toUint32 (gwOf font scale * (glyphCount : ℚ)))

/-- `imageHeight` of `generateAtlas` (font.go line 104). -/
def imageHeightOf (font : TTFont) (scale : Int) : Nat :=
  pow2 (toUint32 (ghOf font scale))

/-- The quad `generateAtlas` emits for the glyph with iteration index `i`
(character code `32 + i`), at pen position `i * gw`. -/
def glyphQuadOf (font : TTFont) (scale : Int) (W H : ℚ) (i : Nat) : List Vector4 :=
  quadAt (gwOf font scale) (ghOf font scale)
         (gwOf font scale * (2 / W)) (ghOf font scale * (2 / H))
         ((imageWidthOf font scale : Nat) : ℚ)
         ((imageHeightOf font scale : Nat) : ℚ)
         ((i : ℚ) * gwOf font scale)

/-- The all-zero `Vector4`, used as the out-of-range default of `vertexAt`. -/
def v4zero : Vector4 := ⟨0, 0, 0, 0⟩

/-- The vertex at position `n` of an atlas's vertex sequence. -/
def vertexAt (a : Atlas) (n : Nat) : Vector4 := a.verts.getD n v4zero

/-- One GL command, as emitted through the `gl` binding by `Printf` and
`Delete`.  Uniform uploads carry the uniform location stored in the `Font`
value together with the uploaded data. -/
inductive GLCmd where
  | enable (cap : Nat)
  | disable (cap : Nat)
  | blendFunc (sfactor dfactor : Nat)
  | useProgram (p : Nat)
  | unuseProgram
  | bindVertexArray (v : Nat)
  | unbindVertexArray
  | uniform4fv (location : Nat) (count : Nat) (value : List ℚ)
  | uniform2f (location : Nat) (x y : ℚ)
  | drawArrays (mode : Nat) (first count : Int)
  | deleteShader (s : Nat)
  | deleteProgram (p : Nat)
  | deleteBuffer (b : Nat)
  | deleteVertexArray (v : Nat)
  | deleteTexture (t : Nat)
deriving DecidableEq, Repr

/-- The fields of `type Font struct` (font.go lines 16–26) that the modelled
operations read: GL object handles, uniform/attribute locations, the advance
table and the current color. -/
structure Font where
  program : Nat
  vs : Nat
  fs : Nat
  positionAttrib : Nat
  colorUniform : Nat
  offsetUniform : Nat
  vao : Nat
  vbo : Nat
  offsets : List ℚ
  color : List ℚ
deriving DecidableEq

/-- The `Font` value built by the struct literal `NewFont` returns (font.go
lines 68–77).  The GL handles created during construction (`program`, `vao`,
`vbo`, the locations, and the two shaders `vs`, `fs` created inside
`createProgram`) are parameters of the model.  The literal assigns `program`,
`vao`, `vbo`, `positionAttrib`, `offsetUniform`, `colorUniform`, `offsets`
and `color` — and does NOT assign `vs` or `fs`, which therefore keep Go's
zero value `gl.Shader(0)`. -/
def newFontValue (program vs fs vao vbo positionAttrib offsetUniform colorUniform : Nat)
    (offsets : List ℚ) : Font :=
  let _ := vs
  let _ := fs
  { program := program
    vs := 0
    fs := 0
    positionAttrib := positionAttrib
    colorUniform := colorUniform
    offsetUniform := offsetUniform
    vao := vao
    vbo := vbo
    offsets := offsets
    color := [1, 1, 1, 1] }

/-- The per-character loop of `Printf` (font.go lines 166–172).  The string
is modelled as the list of runes Go's `range` yields from the formatted
string.  `index := int(ch - 32)`; the slice access `this.offsets[index]`
panics unless `0 ≤ index < len(offsets)` — the panic is modelled by `none`.
Each surviving iteration emits the offset uniform at `(x + totalOffset, y)`
followed by a 4-vertex triangle-strip draw starting at `index * 4`, then
advances `totalOffset` by the glyph's table entry. -/
def printfLoop (offsetUniform : Nat) (offsets : List ℚ) (x y : ℚ) :
    List Int → ℚ → Option (List GLCmd)
  | [], _ => some []
  | ch :: rest, totalOffset =>
    let index : Int := ch - 32
    if _h : 0 ≤ index ∧ index < (offsets.length : Int) then
      let offset := offsets.getD index.toNat 0
      match printfLoop offsetUniform offsets x y rest (totalOffset + offset) with
      | none => none
      | some cmds =>
          some (GLCmd.uniform2f offsetUniform (x + totalOffset) y ::
                GLCmd.drawArrays TRIANGLE_STRIP (index * 4) 4 :: cmds)
    else
      none

/-- The GL commands `Printf` emits before the character loop (font.go lines
155–161). -/
def printfHeader (f : Font) : List GLCmd :=
  [GLCmd.enable BLEND,
   GLCmd.blendFunc SRC_ALPHA ONE_MINUS_SRC_ALPHA,
   GLCmd.useProgram f.program,
   GLCmd.bindVertexArray f.vao,
   GLCmd.uniform4fv f.colorUniform 1 f.color]

/-- The GL commands `Printf` emits after the character loop (font.go lines
173–175). -/
def printfFooter : List GLCmd :=
  [GLCmd.unbindVertexArray, GLCmd.unuseProgram, GLCmd.disable BLEND]

/-- `func (this *Font) Printf` (font.go lines 154–176), as the trace of GL
commands it emits; `none` models the runtime panic of the unguarded advance
lookup.  The argument `s` is the already-formatted rune sequence
(`fmt.Sprintf` substitution is an external concern, per the spec). -/
def printf (f : Font) (x y : ℚ) (s : List Int) : Option (List GLCmd) :=
  match printfLoop f.offsetUniform f.offsets x y s 0 with
  | none => none
  | some body => some (printfHeader f ++ body ++ printfFooter)

/-- The advance-table entry `Printf` reads for rune `ch`
(`this.offsets[ch-32]`). -/
def advOf (offsets : List ℚ) (ch : Int) : ℚ := offsets.getD (ch - 32).toNat 0

/-- The two commands the `Printf` loop emits for one character: the offset
uniform at pen position `pos`, then a 4-vertex triangle-strip draw starting
at vertex `(ch - 32) * 4`. -/
def glyphDraw (offsetUniform : Nat) (y pos : ℚ) (ch : Int) : List GLCmd :=
  [GLCmd.uniform2f offsetUniform pos y,
   GLCmd.drawArrays TRIANGLE_STRIP ((ch - 32) * 4) 4]

/-- Closed form of the `Printf` loop body: the `i`-th character draws at pen
position `x` plus the sum of the advance entries of the preceding
characters. -/
def printfBody (u : Nat) (offsets : List ℚ) (x y : ℚ) (s : List Int) : List GLCmd :=
  (List.range s.length).flatMap (fun i =>
    glyphDraw u y (x + ((s.take i).map (advOf offsets)).sum) (s.getD i 0))

/-- `func (this *Font) Delete` (font.go lines 178–184), as the trace of GL
release commands it emits, in source order. -/
def Font.Delete (f : Font) : List GLCmd :=
  [GLCmd.deleteShader f.vs,
   GLCmd.deleteShader f.fs,
   GLCmd.deleteProgram f.program,
   GLCmd.deleteBuffer f.vbo,
   GLCmd.deleteVertexArray f.vao]

/-- Effect of one GL command on the blend-enable server state. -/
def blendStep (b : Bool) : GLCmd → Bool
  | GLCmd.enable cap => if cap = BLEND then true else b
  | GLCmd.disable cap => if cap = BLEND then false else b
  | _ => b

/-- The blend-enable state after running a command trace from state `b`. -/
def runBlend (b : Bool) (cmds : List GLCmd) : Bool := cmds.foldl blendStep b

/-- Whether a command is a draw call. -/
def isDraw : GLCmd → Bool
  | GLCmd.drawArrays _ _ _ => true
  | _ => false

/-- Whether a command releases a texture object. -/
def isDeleteTexture : GLCmd → Bool
  | GLCmd.deleteTexture _ => true
  | _ => false

/-- Number of draw calls in a trace. -/
def drawCount (cmds : List GLCmd) : Nat := cmds.countP isDraw

/-- A concrete truetype-font black box used to evaluate theorems on closed
inputs: cell 3×7 pixels, glyph index equal to the character code, advance
width equal to the glyph index. -/
def sampleFont : TTFont where
  bounds := fun _ => { xMin := 0, yMin := -2, xMax := 3, yMax := 5 }
  index := fun ch => ch
  hmetricAdvanceWidth := fun _ idx => (idx : Int)

/-- A concrete `Font` value as built by `NewFont`, whose advance table gives
every glyph the advance 1/10. -/
def sampleRenderer : Font :=
  newFontValue 7 5 6 3 4 11 12 13 (List.replicate 96 (1 / 10 : ℚ))

/-! ## Closed form of the atlas loop -/

/-- Closed form of the glyph loop: folding `atlasStep` over a contiguous
character range appends, per glyph, one quad at pen position
`gx0 + i * gw` and one advance entry, and moves the pen by `n * gw`. -/
theorem atlas_foldl_closed (font : TTFont) (scale : Int)
    (sx gw gh w h tW tH : ℚ) :
    ∀ (n s : Nat) (verts0 : List Vector4) (offs0 : List ℚ) (gx0 : ℚ),
    (List.range' s n).foldl (atlasStep font scale sx gw gh w h tW tH)
        (verts0, offs0, gx0) =
      (verts0 ++ (List.range n).flatMap
          (fun i => quadAt gw gh w h tW tH (gx0 + (i : ℚ) * gw)),
       offs0 ++ (List.range' s n).map (glyphAdvance font scale sx),
       gx0 + (n : ℚ) * gw) := by
  intro n
  induction n with
  | zero =>
    intro s verts0 offs0 gx0
    simp [List.range']
  | succ n ih =>
    intro s verts0 offs0 gx0
    rw [List.range'_succ, List.foldl_cons, ih]
    have hstep : atlasStep font scale sx gw gh w h tW tH (verts0, offs0, gx0) s =
        (verts0 ++ quadAt gw gh w h tW tH gx0,
         offs0 ++ [glyphAdvance font scale sx s], gx0 + gw) := by
      simp [atlasStep, quadAt, glyphAdvance]
    rw [hstep]
    refine Prod.ext ?_ (Prod.ext ?_ ?_)
    · show verts0 ++ quadAt gw gh w h tW tH gx0 ++
          (List.range n).flatMap
            (fun i => quadAt gw gh w h tW tH (gx0 + gw + (i : ℚ) * gw)) =
        verts0 ++ (List.range (n + 1)).flatMap
            (fun i => quadAt gw gh w h tW tH (gx0 + (i : ℚ) * gw))
      rw [List.range_succ_eq_map, List.flatMap_cons, List.flatMap_map]
      have harg : (fun i : Nat => quadAt gw gh w h tW tH (gx0 + gw + (i : ℚ) * gw)) =
          (fun i : Nat => quadAt gw gh w h tW tH (gx0 + ((Nat.succ i : Nat) : ℚ) * gw)) := by
        funext i
        have : gx0 + gw + (i : ℚ) * gw = gx0 + ((Nat.succ i : Nat) : ℚ) * gw := by
          push_cast
          ring
        rw [this]
      rw [List.append_assoc]
      have h0 : gx0 + ((0 : Nat) : ℚ) * gw = gx0 := by
        push_cast
        ring
      rw [h0, harg]
    · show offs0 ++ [glyphAdvance font scale sx s] ++
          (List.range' (s + 1) n).map (glyphAdvance font scale sx) =
        offs0 ++ (List.range' s (n + 1)).map (glyphAdvance font scale sx)
      rw [List.range'_succ, List.map_cons, List.append_assoc]
      rfl
    · show gx0 + gw + (n : ℚ) * gw = gx0 + ((n + 1 : Nat) : ℚ) * gw
      push_cast
      ring

/-- `atlas_foldl_closed` specialised to the initial accumulator
`([], [], 0)` actually used by `generateAtlas`. -/
theorem atlas_closed_zero (font : TTFont) (scale : Int)
    (sx gw gh w h tW tH : ℚ) :
    (List.range' glyphLow glyphCount).foldl
        (atlasStep font scale sx gw gh w h tW tH) ([], [], 0) =
      ((List.range glyphCount).flatMap
          (fun i => quadAt gw gh w h tW tH ((i : ℚ) * gw)),
       (List.range' glyphLow glyphCount).map (glyphAdvance font scale sx),
       (glyphCount : ℚ) * gw) := by
  rw [atlas_foldl_closed]
  have hfun : (fun i : Nat => quadAt gw gh w h tW tH (0 + (i : ℚ) * gw)) =
      (fun i : Nat => quadAt gw gh w h tW tH ((i : ℚ) * gw)) := by
    funext i
    rw [zero_add]
  rw [List.nil_append, List.nil_append, hfun, zero_add]

/-- The vertex list produced by `generateAtlas`: 96 quads in ascending
character order, glyph `i` at pen position `i * gw`. -/
theorem generateAtlas_verts (font : TTFont) (scale : Int) (dpi W H : ℚ) :
    (generateAtlas font scale dpi W H).verts =
      (List.range glyphCount).flatMap (glyphQuadOf font scale W H) := by
  unfold glyphQuadOf
  show ((List.range' glyphLow glyphCount).foldl
      (atlasStep font scale (2 / W) (gwOf font scale) (ghOf font scale)
        (gwOf font scale * (2 / W)) (ghOf font scale * (2 / H))
        ((imageWidthOf font scale : Nat) : ℚ)
        ((imageHeightOf font scale : Nat) : ℚ)) ([], [], 0)).1 = _
  rw [atlas_closed_zero]

/-- The advance table produced by `generateAtlas`: `glyphAdvance` mapped over
characters 32..127. -/
theorem generateAtlas_offsets (font : TTFont) (scale : Int) (dpi W H : ℚ) :
    (generateAtlas font scale dpi W H).offsets =
      (List.range' glyphLow glyphCount).map (glyphAdvance font scale (2 / W)) := by
  show ((List.range' glyphLow glyphCount).foldl
      (atlasStep font scale (2 / W) (gwOf font scale) (ghOf font scale)
        (gwOf font scale * (2 / W)) (ghOf font scale * (2 / H))
        ((imageWidthOf font scale : Nat) : ℚ)
        ((imageHeightOf font scale : Nat) : ℚ)) ([], [], 0)).2.1 = _
  rw [atlas_closed_zero]

/-- Each emitted quad has exactly 4 vertices. -/
theorem quadAt_length (gw gh w h tW tH gx : ℚ) :
    (quadAt gw gh w h tW tH gx).length = 4 := rfl

/-- Length of a flat-mapped list whose blocks all have length `k`. -/
theorem flatMap_length_const {α : Type} (k : Nat) (f : Nat → List α)
    (hk : ∀ j, (f j).length = k) :
    ∀ l : List Nat, (l.flatMap f).length = k * l.length := by
  intro l
  induction l with
  | nil => simp
  | cons a t ih =>
    simp only [List.flatMap_cons, List.length_append, List.length_cons, hk, ih]
    ring

/-- Extracting block `i` from a flat-mapped list of constant block length:
taking `k` elements after dropping `k * i` recovers `f i`. -/
theorem flatMap_block_extract {α : Type} (k : Nat) :
    ∀ (i n : Nat) (f : Nat → List α), (∀ j, (f j).length = k) → i < n →
      (((List.range n).flatMap f).drop (k * i)).take k = f i := by
  intro i
  induction i with
  | zero =>
    intro n f hk hn
    cases n with
    | zero => omega
    | succ m =>
      rw [List.range_succ_eq_map, List.flatMap_cons, Nat.mul_zero, List.drop_zero]
      exact List.take_left' (hk 0)
  | succ j ih =>
    intro n f hk hn
    cases n with
    | zero => omega
    | succ m =>
      rw [List.range_succ_eq_map, List.flatMap_cons, List.flatMap_map]
      have hsplit : k * (j + 1) = (f 0).length + k * j := by
        rw [hk 0]
        ring
      rw [hsplit, List.drop_append]
      exact ih m (f ∘ Nat.succ) (fun l => hk (l + 1)) (by omega)

/-- The block of four vertices at positions `[4i, 4i+4)` of the vertex
sequence is exactly glyph `i`'s quad. -/
theorem atlas_glyph_block (font : TTFont) (scale : Int) (dpi W H : ℚ)
    (i : Nat) (hi : i < glyphCount) :
    (((generateAtlas font scale dpi W H).verts.drop (4 * i)).take 4) =
      glyphQuadOf font scale W H i := by
  rw [generateAtlas_verts]
  exact flatMap_block_extract 4 i glyphCount _ (fun j => rfl) hi

/-- `vertexAt` on position `4i + k` reads corner `k` of glyph `i`'s quad. -/
theorem vertexAt_block (font : TTFont) (scale : Int) (dpi W H : ℚ)
    (i k : Nat) (hi : i < glyphCount) (hk : k < 4) :
    vertexAt (generateAtlas font scale dpi W H) (4 * i + k) =
      (glyphQuadOf font scale W H i).getD k v4zero := by
  have h1 := atlas_glyph_block font scale dpi W H i hi
  have h2 : ((generateAtlas font scale dpi W H).verts)[4 * i + k]? =
      (glyphQuadOf font scale W H i)[k]? := by
    rw [← h1, List.getElem?_take_of_lt hk, List.getElem?_drop]
  simp only [vertexAt, List.getD_eq_getElem?_getD, h2]

/-- The atlas bitmap width produced by `generateAtlas`. -/
theorem generateAtlas_imageWidth (font : TTFont) (scale : Int) (dpi W H : ℚ) :
    (generateAtlas font scale dpi W H).imageWidth = imageWidthOf font scale := rfl

/-- The atlas bitmap height produced by `generateAtlas`. -/
theorem generateAtlas_imageHeight (font : TTFont) (scale : Int) (dpi W H : ℚ) :
    (generateAtlas font scale dpi W H).imageHeight = imageHeightOf font scale := rfl

/-! ## C1 -/

/-- C1: for the hard-coded glyph range 32..127 (96 glyphs) and every
font/scale/dpi/viewport input, `generateAtlas` returns exactly 4 × 96 = 384
`Vector4` records, glyph index `i`'s 4 vertices occupying positions
`[4i, 4i+4)` in ascending character-code order, together with a 96-entry
advance table. -/
theorem claim1_atlas_shape (font : TTFont) (scale : Int) (dpi W H : ℚ) :
    (generateAtlas font scale dpi W H).verts.length = 384 ∧
    (generateAtlas font scale dpi W H).offsets.length = 96 ∧
    ∀ i, i < 96 →
      (((generateAtlas font scale dpi W H).verts.drop (4 * i)).take 4) =
        glyphQuadOf font scale W H i := by
  have hq : ∀ j, (glyphQuadOf font scale W H j).length = 4 := fun j => rfl
  have hc : glyphCount = 96 := rfl
  refine ⟨?_, ?_, ?_⟩
  · rw [generateAtlas_verts, flatMap_length_const 4 _ hq, List.length_range, hc]
  · rw [generateAtlas_offsets, List.length_map, List.length_range', hc]
  · intro i hi
    exact atlas_glyph_block font scale dpi W H i (by omega)

/-- Witness for C1 at concrete inputs: glyph index 0's vertices are the first
four. -/
theorem claim1_atlas_shape_witness :
    (0 : Nat) < 96 ∧
    (((generateAtlas sampleFont 16 72 640 480).verts.drop (4 * 0)).take 4) =
      glyphQuadOf sampleFont 16 640 480 0 :=
  ⟨by decide, (claim1_atlas_shape sampleFont 16 72 640 480).2.2 0 (by decide)⟩

/-! ## C6 -/

/-- C6: for every pair of glyphs `i`, `j` and every corner `k < 4`, the
`(x, y)` components of glyph `i`'s `k`-th vertex equal those of glyph `j`'s
`k`-th vertex: all glyph quads are congruent rectangles of the same
clip-space size (only the texture coordinates in the `z`, `w` slots vary). -/
theorem claim6_congruent_quads (font : TTFont) (scale : Int) (dpi W H : ℚ)
    (i j k : Nat) (hi : i < 96) (hj : j < 96) (hk : k < 4) :
    (vertexAt (generateAtlas font scale dpi W H) (4 * i + k)).x =
      (vertexAt (generateAtlas font scale dpi W H) (4 * j + k)).x ∧
    (vertexAt (generateAtlas font scale dpi W H) (4 * i + k)).y =
      (vertexAt (generateAtlas font scale dpi W H) (4 * j + k)).y := by
  have hc : glyphCount = 96 := rfl
  rw [vertexAt_block font scale dpi W H i k (by omega) hk,
      vertexAt_block font scale dpi W H j k (by omega) hk]
  interval_cases k <;>
    simp [glyphQuadOf, quadAt, v4zero]

/-- Witness for C6 at concrete inputs: glyphs 0 and 9 share corner 2's
position. -/
theorem claim6_congruent_quads_witness :
    (0 : Nat) < 96 ∧ (9 : Nat) < 96 ∧ (2 : Nat) < 4 ∧
    ((vertexAt (generateAtlas sampleFont 16 72 640 480) (4 * 0 + 2)).x =
      (vertexAt (generateAtlas sampleFont 16 72 640 480) (4 * 9 + 2)).x ∧
    (vertexAt (generateAtlas sampleFont 16 72 640 480) (4 * 0 + 2)).y =
      (vertexAt (generateAtlas sampleFont 16 72 640 480) (4 * 9 + 2)).y) :=
  ⟨by decide, by decide, by decide,
   claim6_congruent_quads sampleFont 16 72 640 480 0 9 2
     (by decide) (by decide) (by decide)⟩

/-! ## C3 -/

/-- C3: every glyph's 4 vertices have the fixed clip-space corners
`(-1, 1)`, `(-1+w, 1)`, `(-1, 1-h)`, `(-1+w, 1-h)` (order top-left,
top-right, bottom-left, bottom-right) with `w = gw·(2/W)`, `h = gh·(2/H)`,
and texture coordinates `(gx, 0, gx+gw, gh)` normalised by the bitmap
dimensions; consequently changing only the viewport dimensions leaves every
texture coordinate unchanged and scales the quads' clip-space width and
height by the inverse ratio of the viewport dimensions. -/
theorem claim3_quad_geometry (font : TTFont) (scale : Int) (dpi : ℚ) :
    (∀ W H : ℚ, ∀ i, i < 96 →
      ((generateAtlas font scale dpi W H).verts.drop (4 * i)).take 4 =
        [⟨-1, 1,
           ((i : ℚ) * gwOf font scale) / ((imageWidthOf font scale : Nat) : ℚ),
           0 / ((imageHeightOf font scale : Nat) : ℚ)⟩,
         ⟨-1 + gwOf font scale * (2 / W), 1,
           ((i : ℚ) * gwOf font scale + gwOf font scale) /
             ((imageWidthOf font scale : Nat) : ℚ),
           0 / ((imageHeightOf font scale : Nat) : ℚ)⟩,
         ⟨-1, 1 - ghOf font scale * (2 / H),
           ((i : ℚ) * gwOf font scale) / ((imageWidthOf font scale : Nat) : ℚ),
           (0 + ghOf font scale) / ((imageHeightOf font scale : Nat) : ℚ)⟩,
         ⟨-1 + gwOf font scale * (2 / W), 1 - ghOf font scale * (2 / H),
           ((i : ℚ) * gwOf font scale + gwOf font scale) /
             ((imageWidthOf font scale : Nat) : ℚ),
           (0 + ghOf font scale) / ((imageHeightOf font scale : Nat) : ℚ)⟩]) ∧
    (∀ W₁ H₁ W₂ H₂ : ℚ, W₁ ≠ 0 → W₂ ≠ 0 → H₁ ≠ 0 → H₂ ≠ 0 →
      (∀ n, n < 384 →
        (vertexAt (generateAtlas font scale dpi W₂ H₂) n).z =
          (vertexAt (generateAtlas font scale dpi W₁ H₁) n).z ∧
        (vertexAt (generateAtlas font scale dpi W₂ H₂) n).w =
          (vertexAt (generateAtlas font scale dpi W₁ H₁) n).w) ∧
      (∀ i, i < 96 →
        (vertexAt (generateAtlas font scale dpi W₂ H₂) (4 * i + 1)).x -
            (vertexAt (generateAtlas font scale dpi W₂ H₂) (4 * i)).x =
          ((vertexAt (generateAtlas font scale dpi W₁ H₁) (4 * i + 1)).x -
            (vertexAt (generateAtlas font scale dpi W₁ H₁) (4 * i)).x) * (W₁ / W₂) ∧
        (vertexAt (generateAtlas font scale dpi W₂ H₂) (4 * i)).y -
            (vertexAt (generateAtlas font scale dpi W₂ H₂) (4 * i + 2)).y =
          ((vertexAt (generateAtlas font scale dpi W₁ H₁) (4 * i)).y -
            (vertexAt (generateAtlas font scale dpi W₁ H₁) (4 * i + 2)).y) *
            (H₁ / H₂))) := by
  have hc : glyphCount = 96 := rfl
  refine ⟨?_, ?_⟩
  · intro W H i hi
    rw [atlas_glyph_block font scale dpi W H i (by omega)]
    rfl
  · intro W₁ H₁ W₂ H₂ hW₁ hW₂ hH₁ hH₂
    constructor
    · intro n hn
      obtain ⟨i, k, hi, hk, rfl⟩ : ∃ i k, i < 96 ∧ k < 4 ∧ n = 4 * i + k :=
        ⟨n / 4, n % 4, by omega, by omega, by omega⟩
      rw [vertexAt_block font scale dpi W₂ H₂ i k (by omega) hk,
          vertexAt_block font scale dpi W₁ H₁ i k (by omega) hk]
      interval_cases k <;>
        simp [glyphQuadOf, quadAt, v4zero]
    · intro i hi
      have e20 : vertexAt (generateAtlas font scale dpi W₂ H₂) (4 * i) =
          (glyphQuadOf font scale W₂ H₂ i).getD 0 v4zero := by
        have h := vertexAt_block font scale dpi W₂ H₂ i 0 (by omega) (by omega)
        rwa [Nat.add_zero] at h
      have e10 : vertexAt (generateAtlas font scale dpi W₁ H₁) (4 * i) =
          (glyphQuadOf font scale W₁ H₁ i).getD 0 v4zero := by
        have h := vertexAt_block font scale dpi W₁ H₁ i 0 (by omega) (by omega)
        rwa [Nat.add_zero] at h
      rw [vertexAt_block font scale dpi W₂ H₂ i 1 (by omega) (by omega),
          vertexAt_block font scale dpi W₁ H₁ i 1 (by omega) (by omega),
          vertexAt_block font scale dpi W₂ H₂ i 2 (by omega) (by omega),
          vertexAt_block font scale dpi W₁ H₁ i 2 (by omega) (by omega),
          e20, e10]
      simp only [glyphQuadOf, quadAt, List.getD_cons_zero, List.getD_cons_succ]
      constructor
      · field_simp
      · field_simp

/-- Witness for C3 at concrete inputs: a 640×480 and a 320×240 renderer from
the same font share the texture coordinates of vertex 7, and glyph 2's quad
is twice as wide in clip space in the smaller viewport. -/
theorem claim3_quad_geometry_witness :
    (0 : Nat) < 96 ∧ ((640 : ℚ) ≠ 0) ∧ ((320 : ℚ) ≠ 0) ∧ ((480 : ℚ) ≠ 0) ∧
    ((240 : ℚ) ≠ 0) ∧ (7 : Nat) < 384 ∧ (2 : Nat) < 96 ∧
    ((generateAtlas sampleFont 16 72 640 480).verts.drop (4 * 0)).take 4 =
      [⟨-1, 1, ((0 : ℚ) * gwOf sampleFont 16) / ((imageWidthOf sampleFont 16 : Nat) : ℚ),
         0 / ((imageHeightOf sampleFont 16 : Nat) : ℚ)⟩,
       ⟨-1 + gwOf sampleFont 16 * (2 / 640), 1,
         ((0 : ℚ) * gwOf sampleFont 16 + gwOf sampleFont 16) /
           ((imageWidthOf sampleFont 16 : Nat) : ℚ),
         0 / ((imageHeightOf sampleFont 16 : Nat) : ℚ)⟩,
       ⟨-1, 1 - ghOf sampleFont 16 * (2 / 480),
         ((0 : ℚ) * gwOf sampleFont 16) / ((imageWidthOf sampleFont 16 : Nat) : ℚ),
         (0 + ghOf sampleFont 16) / ((imageHeightOf sampleFont 16 : Nat) : ℚ)⟩,
       ⟨-1 + gwOf sampleFont 16 * (2 / 640), 1 - ghOf sampleFont 16 * (2 / 480),
         ((0 : ℚ) * gwOf sampleFont 16 + gwOf sampleFont 16) /
           ((imageWidthOf sampleFont 16 : Nat) : ℚ),
         (0 + ghOf sampleFont 16) / ((imageHeightOf sampleFont 16 : Nat) : ℚ)⟩] ∧
    (vertexAt (generateAtlas sampleFont 16 72 320 240) 7).z =
      (vertexAt (generateAtlas sampleFont 16 72 640 480) 7).z ∧
    (vertexAt (generateAtlas sampleFont 16 72 320 240) (4 * 2 + 1)).x -
        (vertexAt (generateAtlas sampleFont 16 72 320 240) (4 * 2)).x =
      ((vertexAt (generateAtlas sampleFont 16 72 640 480) (4 * 2 + 1)).x -
        (vertexAt (generateAtlas sampleFont 16 72 640 480) (4 * 2)).x) *
        ((640 : ℚ) / 320) :=
  ⟨by decide, by norm_num, by norm_num, by norm_num, by norm_num, by decide, by decide,
   (claim3_quad_geometry sampleFont 16 72).1 640 480 0 (by decide),
   (((claim3_quad_geometry sampleFont 16 72).2 640 480 320 240
      (by norm_num) (by norm_num) (by norm_num) (by norm_num)).1 7 (by decide)).1,
   (((claim3_quad_geometry sampleFont 16 72).2 640 480 320 240
      (by norm_num) (by norm_num) (by norm_num) (by norm_num)).2 2 (by decide)).1⟩

/-! ## C4 -/

/-- C4: for every character `ch` in 32..127, the advance table entry at index
`ch − 32` is the font's horizontal-advance metric for `ch` at the given
scale multiplied by `sx = 2 / viewportWidth`; and whenever the font's
advance metrics are non-negative and the viewport width is positive, every
entry of the table is non-negative. -/
theorem claim4_advance_table (font : TTFont) (scale : Int) (dpi W H : ℚ) :
    (∀ ch : Nat, 32 ≤ ch → ch ≤ 127 →
      (generateAtlas font scale dpi W H).offsets.getD (ch - 32) 0 =
        (font.hmetricAdvanceWidth scale (font.index ch) : ℚ) * (2 / W)) ∧
    ((∀ idx, 0 ≤ font.hmetricAdvanceWidth scale idx) → 0 < W →
      ∀ q ∈ (generateAtlas font scale dpi W H).offsets, 0 ≤ q) := by
  constructor
  · intro ch h32 h127
    have hc : glyphCount = 96 := rfl
    rw [generateAtlas_offsets, List.getD_eq_getElem?_getD, List.getElem?_map,
        List.getElem?_range' _ _ (show ch - 32 < glyphCount by omega)]
    rw [Option.map_some', Option.getD_some]
    have harg : glyphLow + 1 * (ch - 32) = ch := by
      have hl : glyphLow = 32 := rfl
      omega
    rw [harg]
    rfl
  · intro hadv hW q hq
    rw [generateAtlas_offsets] at hq
    obtain ⟨ch, hch, rfl⟩ := List.mem_map.mp hq
    unfold glyphAdvance
    have h1 : (0 : ℚ) ≤ (font.hmetricAdvanceWidth scale (font.index ch) : ℚ) := by
      exact_mod_cast hadv (font.index ch)
    have h2 : (0 : ℚ) ≤ 2 / W := by positivity
    exact mul_nonneg h1 h2

/-- Witness for C4 at concrete inputs: the entry for character 65 equals its
metric times `2/640`, and all entries are non-negative. -/
theorem claim4_advance_table_witness :
    ((32 : Nat) ≤ 65) ∧ ((65 : Nat) ≤ 127) ∧ ((0 : ℚ) < 640) ∧
    (generateAtlas sampleFont 16 72 640 480).offsets.getD (65 - 32) 0 =
      (sampleFont.hmetricAdvanceWidth 16 (sampleFont.index 65) : ℚ) * (2 / 640) ∧
    0 ≤ (generateAtlas sampleFont 16 72 640 480).offsets.getD (65 - 32) 0 := by
  have hmain := (claim4_advance_table sampleFont 16 72 640 480).1 65 (by decide) (by decide)
  refine ⟨by decide, by decide, by norm_num, hmain, ?_⟩
  rw [hmain]
  norm_num [sampleFont]

/-! ## C5: correctness of the power-of-two rounding -/

/-- Bits of one or-shift step: bit `j` of `x ||| x >>> m` is bit `j` or bit
`j + m` of `x`. -/
theorem or_shift_testBit (x m j : Nat) :
    (x ||| x >>> m).testBit j = (x.testBit j || x.testBit (j + m)) := by
  rw [Nat.testBit_or, Nat.testBit_shiftRight, Nat.add_comm m j]

/-- Inductive step for the smear cascade: if bit `j` of `x` witnesses a set
bit of `y` within distance `m`, then bit `j` of `x ||| x >>> m` witnesses one
within distance `2m`. -/
theorem smear_step {y x m : Nat}
    (h : ∀ j, x.testBit j = true ↔ ∃ d, d < m ∧ y.testBit (j + d) = true) :
    ∀ j, (x ||| x >>> m).testBit j = true ↔
      ∃ d, d < 2 * m ∧ y.testBit (j + d) = true := by
  intro j
  rw [or_shift_testBit, Bool.or_eq_true, h j, h (j + m)]
  constructor
  · rintro (⟨d, hd, hbit⟩ | ⟨d, hd, hbit⟩)
    · exact ⟨d, by omega, hbit⟩
    · exact ⟨m + d, by omega, by rwa [← Nat.add_assoc]⟩
  · rintro ⟨d, hd, hbit⟩
    by_cases hdm : d < m
    · exact Or.inl ⟨d, hdm, hbit⟩
    · refine Or.inr ⟨d - m, by omega, ?_⟩
      have harr : j + m + (d - m) = j + d := by omega
      rw [harr]
      exact hbit

/-- Bit `j` of `smear y` is set exactly when `y` has a set bit at distance
less than 32 above `j`. -/
theorem smear_bits (y j : Nat) :
    (smear y).testBit j = true ↔ ∃ d, d < 32 ∧ y.testBit (j + d) = true := by
  have h1 : ∀ i, y.testBit i = true ↔ ∃ d, d < 1 ∧ y.testBit (i + d) = true := by
    intro i
    constructor
    · intro h
      exact ⟨0, Nat.zero_lt_one, by simpa using h⟩
    · rintro ⟨d, hd, h⟩
      have hd0 : d = 0 := by omega
      rw [hd0] at h
      simpa using h
  have h2 := smear_step h1
  have h3 := smear_step h2
  have h4 := smear_step h3
  have h5 := smear_step h4
  have h6 := smear_step h5
  have h32 : 2 * (2 * (2 * (2 * (2 * 1)))) = 32 := by norm_num
  rw [h32] at h6
  exact h6 j

/-- The most significant bit: for positive `y`, bit `log₂ y` of `y` is set. -/
theorem testBit_log_self : ∀ y : Nat, 0 < y → y.testBit (Nat.log 2 y) = true := by
  intro y
  induction y using Nat.strong_induction_on with
  | _ y ih =>
    intro hy
    by_cases h2 : y < 2
    · have h1 : y = 1 := by omega
      subst h1
      rw [Nat.log_one_right]
      decide
    · have hpos : 0 < Nat.log 2 y := Nat.log_pos (by norm_num) (by omega)
      have hlog : Nat.log 2 y = Nat.log 2 (y / 2) + 1 := by
        rw [Nat.log_div_base]
        omega
      rw [hlog, Nat.testBit_succ]
      exact ih (y / 2) (by omega) (by omega)

/-- The smear cascade fills every bit up to the most significant one: for
`0 < y < 2^32`, `smear y = 2^(log₂ y + 1) − 1`. -/
theorem smear_eq {y : Nat} (h0 : 0 < y) (hy : y < 2 ^ 32) :
    smear y = 2 ^ (Nat.log 2 y + 1) - 1 := by
  apply Nat.eq_of_testBit_eq
  intro j
  rw [Nat.testBit_two_pow_sub_one, Bool.eq_iff_iff, decide_eq_true_eq, smear_bits]
  constructor
  · rintro ⟨d, hd, hbit⟩
    have hge := Nat.testBit_implies_ge hbit
    have hlt : y < 2 ^ (Nat.log 2 y + 1) :=
      Nat.lt_pow_succ_log_self (by norm_num) y
    by_contra hcon
    push_neg at hcon
    have hmono : 2 ^ (Nat.log 2 y + 1) ≤ 2 ^ (j + d) :=
      Nat.pow_le_pow_right (by norm_num) (by omega)
    omega
  · intro hj
    refine ⟨Nat.log 2 y - j, ?_, ?_⟩
    · have hl32 : Nat.log 2 y < 32 := Nat.log_lt_of_lt_pow (by omega) hy
      omega
    · have hjl : j + (Nat.log 2 y - j) = Nat.log 2 y := by omega
      rw [hjl]
      exact testBit_log_self y h0

/-- `pow2` written through `smear`. -/
theorem pow2_eq_smear (x : Nat) :
    pow2 x = u32 (smear (u32 (x + (2 ^ 32 - 1))) + 1) := rfl

/-- Correctness of `glh.Pow2` on the in-range inputs `1 ≤ x ≤ 2^31`: the
result is a power of two and is at least `x`. -/
theorem pow2_spec {x : Nat} (h1 : 1 ≤ x) (h2 : x ≤ 2 ^ 31) :
    (∃ k, pow2 x = 2 ^ k) ∧ x ≤ pow2 x := by
  have hdec : u32 (x + (2 ^ 32 - 1)) = x - 1 := by
    unfold u32
    omega
  by_cases h0 : x = 1
  · subst h0
    exact ⟨⟨0, by decide⟩, by decide⟩
  · have hx0 : 0 < x - 1 := by omega
    have hlt : x - 1 < 2 ^ 32 := by omega
    have hlog : Nat.log 2 (x - 1) < 31 := by
      apply Nat.log_lt_of_lt_pow (by omega)
      omega
    have hpow : pow2 x = 2 ^ (Nat.log 2 (x - 1) + 1) := by
      rw [pow2_eq_smear, hdec, smear_eq hx0 hlt]
      have hone : 1 ≤ 2 ^ (Nat.log 2 (x - 1) + 1) := Nat.one_le_two_pow
      have hsmall : 2 ^ (Nat.log 2 (x - 1) + 1) < 2 ^ 32 :=
        Nat.pow_lt_pow_right (by norm_num) (by omega)
      unfold u32
      omega
    refine ⟨⟨_, hpow⟩, ?_⟩
    rw [hpow]
    have hbound := Nat.lt_pow_succ_log_self (b := 2) (by norm_num) (x - 1)
    omega

/-- `Rat.floor` of an integer cast is that integer. -/
theorem rat_floor_intCast (z : Int) : ((z : ℚ)).floor = z := by
  have h : ((z : ℚ)).floor = ⌊(z : ℚ)⌋ := rfl
  rw [h, Int.floor_intCast]

/-- C5: the atlas bitmap's width and height are each a power of two, with
width at least the unrounded required dimension `gw × glyphCount` and height
at least `gh` — for any font whose glyph cell is at least one pixel in each
direction and small enough not to overflow the `uint32` conversion. -/
theorem claim5_pow2_dims (font : TTFont) (scale : Int) (dpi W H : ℚ)
    (hw1 : 1 ≤ (font.bounds scale).xMax - (font.bounds scale).xMin)
    (hw2 : ((font.bounds scale).xMax - (font.bounds scale).xMin) * 96 ≤ 2 ^ 31)
    (hh1 : 1 ≤ (font.bounds scale).yMax - (font.bounds scale).yMin)
    (hh2 : (font.bounds scale).yMax - (font.bounds scale).yMin ≤ 2 ^ 31) :
    ((∃ k, (generateAtlas font scale dpi W H).imageWidth = 2 ^ k) ∧
      gwOf font scale * (glyphCount : ℚ) ≤
        ((generateAtlas font scale dpi W H).imageWidth : ℚ)) ∧
    ((∃ k, (generateAtlas font scale dpi W H).imageHeight = 2 ^ k) ∧
      ghOf font scale ≤ ((generateAtlas font scale dpi W H).imageHeight : ℚ)) := by
  rw [generateAtlas_imageWidth, generateAtlas_imageHeight]
  set gwi : Int := (font.bounds scale).xMax - (font.bounds scale).xMin with hgwi
  set ghi : Int := (font.bounds scale).yMax - (font.bounds scale).yMin with hghi
  have hgw : gwOf font scale = (gwi : ℚ) := rfl
  have hgh : ghOf font scale = (ghi : ℚ) := rfl
  have hcast : gwOf font scale * (glyphCount : ℚ) = ((gwi * 96 : Int) : ℚ) := by
    rw [hgw]
    have : (glyphCount : ℚ) = ((96 : Int) : ℚ) := by norm_num [glyphCount, glyphHigh, glyphLow]
    rw [this]
    push_cast
    ring
  have hwN : toUint32 (gwOf font scale * (glyphCount : ℚ)) = (gwi * 96).toNat := by
    rw [hcast]
    unfold toUint32
    rw [rat_floor_intCast]
  have hhN : toUint32 (ghOf font scale) = ghi.toNat := by
    rw [hgh]
    unfold toUint32
    rw [rat_floor_intCast]
  have hw1N : 1 ≤ (gwi * 96).toNat := by omega
  have hw2N : (gwi * 96).toNat ≤ 2 ^ 31 := by omega
  have hh1N : 1 ≤ ghi.toNat := by omega
  have hh2N : ghi.toNat ≤ 2 ^ 31 := by omega
  obtain ⟨⟨kw, hkw⟩, hwle⟩ := pow2_spec hw1N hw2N
  obtain ⟨⟨kh, hkh⟩, hhle⟩ := pow2_spec hh1N hh2N
  refine ⟨⟨⟨kw, ?_⟩, ?_⟩, ⟨⟨kh, ?_⟩, ?_⟩⟩
  · rw [imageWidthOf, hwN, hkw]
  · rw [imageWidthOf, hwN, hcast]
    have hq : (((gwi * 96).toNat : Nat) : ℚ) = ((gwi * 96 : Int) : ℚ) := by
      exact_mod_cast congrArg (fun z : Int => (z : ℚ))
        (Int.toNat_of_nonneg (show (0 : Int) ≤ gwi * 96 by omega))
    rw [← hq]
    exact_mod_cast hwle
  · rw [imageHeightOf, hhN, hkh]
  · rw [imageHeightOf, hhN, hgh]
    have hq : ((ghi.toNat : Nat) : ℚ) = (ghi : ℚ) := by
      exact_mod_cast congrArg (fun z : Int => (z : ℚ))
        (Int.toNat_of_nonneg (show (0 : Int) ≤ ghi by omega))
    rw [← hq]
    exact_mod_cast hhle

/-- Witness for C5 at concrete inputs: the sample font's 3×7 cell yields a
512×8 atlas. -/
theorem claim5_pow2_dims_witness :
    ((1 : Int) ≤ (sampleFont.bounds 16).xMax - (sampleFont.bounds 16).xMin) ∧
    (((sampleFont.bounds 16).xMax - (sampleFont.bounds 16).xMin) * 96 ≤ 2 ^ 31) ∧
    ((1 : Int) ≤ (sampleFont.bounds 16).yMax - (sampleFont.bounds 16).yMin) ∧
    ((sampleFont.bounds 16).yMax - (sampleFont.bounds 16).yMin ≤ 2 ^ 31) ∧
    (((∃ k, (generateAtlas sampleFont 16 72 640 480).imageWidth = 2 ^ k) ∧
      gwOf sampleFont 16 * (glyphCount : ℚ) ≤
        ((generateAtlas sampleFont 16 72 640 480).imageWidth : ℚ)) ∧
    ((∃ k, (generateAtlas sampleFont 16 72 640 480).imageHeight = 2 ^ k) ∧
      ghOf sampleFont 16 ≤ ((generateAtlas sampleFont 16 72 640 480).imageHeight : ℚ))) :=
  ⟨by decide, by decide, by decide, by decide,
   claim5_pow2_dims sampleFont 16 72 640 480
     (by decide) (by decide) (by decide) (by decide)⟩

/-! ## Closed form of the Printf loop -/

/-- Unfolding `printfBody` on a cons cell. -/
theorem printfBody_cons (u : Nat) (offsets : List ℚ) (x y : ℚ) (ch : Int)
    (rest : List Int) :
    printfBody u offsets x y (ch :: rest) =
      glyphDraw u y x ch ++ printfBody u offsets (x + advOf offsets ch) y rest := by
  unfold printfBody
  rw [List.length_cons, List.range_succ_eq_map, List.flatMap_cons, List.flatMap_map]
  congr 1
  · simp only [List.take_zero, List.map_nil, List.sum_nil, add_zero, List.getD_cons_zero]
  · have hfun : (fun i : Nat => glyphDraw u y
        (x + (((ch :: rest).take (Nat.succ i)).map (advOf offsets)).sum)
        ((ch :: rest).getD (Nat.succ i) 0)) =
      (fun i : Nat => glyphDraw u y
        (x + advOf offsets ch + ((rest.take i).map (advOf offsets)).sum)
        (rest.getD i 0)) := by
      funext i
      simp only [List.take_succ_cons, List.map_cons, List.sum_cons, List.getD_cons_succ]
      rw [← add_assoc]
    exact congrArg (fun g => (List.range rest.length).flatMap g) hfun

/-- The `Printf` loop succeeds on in-range characters and emits the
prefix-sum draw protocol. -/
theorem printfLoop_eq_body (u : Nat) (offsets : List ℚ) (x y : ℚ) :
    ∀ (s : List Int) (t : ℚ),
      (∀ ch ∈ s, 0 ≤ ch - 32 ∧ ch - 32 < (offsets.length : Int)) →
      printfLoop u offsets x y s t = some (printfBody u offsets (x + t) y s) := by
  intro s
  induction s with
  | nil =>
    intro t _
    rfl
  | cons ch rest ih =>
    intro t hs
    have hch := hs ch (List.mem_cons_self ch rest)
    simp only [printfLoop]
    rw [dif_pos hch]
    rw [ih (t + offsets.getD (ch - 32).toNat 0)
        (fun c hc => hs c (List.mem_cons_of_mem ch hc))]
    rw [printfBody_cons]
    have harith : x + (t + offsets.getD (ch - 32).toNat 0) =
        x + t + advOf offsets ch := by
      show _ = x + t + offsets.getD (ch - 32).toNat 0
      ring
    rw [harith]
    rfl

/-- `printf` on in-range input: header, prefix-sum body, footer. -/
theorem printf_eq_trace (f : Font) (x y : ℚ) (s : List Int)
    (hs : ∀ ch ∈ s, 0 ≤ ch - 32 ∧ ch - 32 < (f.offsets.length : Int)) :
    printf f x y s =
      some (printfHeader f ++ printfBody f.offsetUniform f.offsets x y s ++
        printfFooter) := by
  unfold printf
  rw [printfLoop_eq_body f.offsetUniform f.offsets x y s 0 hs, add_zero]

/-- The `Printf` loop returns a trace exactly when every character's advance
lookup is in bounds. -/
theorem printfLoop_isSome (u : Nat) (offsets : List ℚ) (x y : ℚ) :
    ∀ (s : List Int) (t : ℚ),
      (printfLoop u offsets x y s t).isSome = true ↔
        ∀ ch ∈ s, 0 ≤ ch - 32 ∧ ch - 32 < (offsets.length : Int) := by
  intro s
  induction s with
  | nil =>
    intro t
    simp [printfLoop]
  | cons ch rest ih =>
    intro t
    by_cases hch : 0 ≤ ch - 32 ∧ ch - 32 < (offsets.length : Int)
    · have hrest := ih (t + offsets.getD (ch - 32).toNat 0)
      simp only [printfLoop]
      rw [dif_pos hch]
      cases hrec : printfLoop u offsets x y rest (t + offsets.getD (ch - 32).toNat 0) with
      | none =>
        rw [hrec] at hrest
        simp only [Option.isSome_none, Bool.false_eq_true, false_iff] at hrest ⊢
        intro hall
        exact hrest (fun c hc => hall c (List.mem_cons_of_mem ch hc))
      | some body =>
        rw [hrec] at hrest
        simp only [Option.isSome_some, true_iff] at hrest
        simp only [Option.isSome_some, true_iff]
        intro c hc
        rcases List.mem_cons.mp hc with hceq | hcm
        · rw [hceq]
          exact hch
        · exact hrest c hcm
    · simp only [printfLoop]
      rw [dif_neg hch]
      simp only [Option.isSome_none, Bool.false_eq_true, false_iff]
      intro hall
      exact hch (hall ch (List.mem_cons_self ch rest))

/-- `runBlend` over an appended trace. -/
theorem runBlend_append (b : Bool) (l₁ l₂ : List GLCmd) :
    runBlend b (l₁ ++ l₂) = runBlend (runBlend b l₁) l₂ :=
  List.foldl_append blendStep b l₁ l₂

/-! ## C2 -/

/-- C2: on a formatted string of in-range characters, `Printf` walks the
characters in order and, for the `i`-th one, sets the offset uniform to
`(x + runningOffset, y)` where `runningOffset` is the sum of the advance
entries of the first `i` characters, then issues one triangle-strip draw of
exactly 4 vertices starting at vertex `(ch − 32) × 4`. -/
theorem claim2_printf_draw_protocol (f : Font) (x y : ℚ) (s : List Int)
    (hlen : f.offsets.length = 96)
    (hs : ∀ ch ∈ s, 32 ≤ ch ∧ ch ≤ 127) :
    printf f x y s =
      some (printfHeader f ++
        (List.range s.length).flatMap (fun i =>
          [GLCmd.uniform2f f.offsetUniform
             (x + ((s.take i).map (advOf f.offsets)).sum) y,
           GLCmd.drawArrays TRIANGLE_STRIP ((s.getD i 0 - 32) * 4) 4]) ++
        printfFooter) := by
  have hs' : ∀ ch ∈ s, 0 ≤ ch - 32 ∧ ch - 32 < (f.offsets.length : Int) := by
    intro ch hc
    have := hs ch hc
    rw [hlen]
    omega
  rw [printf_eq_trace f x y s hs']
  rfl

/-- Witness for C2: drawing "AAA" with every advance equal to 1/10 issues
three draws whose running offsets past the base are 0, 1/10, 2/10. -/
theorem claim2_printf_draw_protocol_witness :
    sampleRenderer.offsets.length = 96 ∧
    ((32 : Int) ≤ 65 ∧ (65 : Int) ≤ 127) ∧
    ((([65, 65, 65] : List Int).take 0).map (advOf sampleRenderer.offsets)).sum = 0 ∧
    ((([65, 65, 65] : List Int).take 1).map (advOf sampleRenderer.offsets)).sum = 1 / 10 ∧
    ((([65, 65, 65] : List Int).take 2).map (advOf sampleRenderer.offsets)).sum = 2 / 10 ∧
    printf sampleRenderer 5 7 [65, 65, 65] =
      some (printfHeader sampleRenderer ++
        printfBody 12 sampleRenderer.offsets 5 7 [65, 65, 65] ++ printfFooter) := by
  have hadv : advOf sampleRenderer.offsets 65 = 1 / 10 := by
    rw [show advOf sampleRenderer.offsets 65 =
          (List.replicate 96 ((1 : ℚ) / 10)).getD 33 0 from rfl,
        List.getD_eq_getElem?_getD, List.getElem?_replicate]
    norm_num
  refine ⟨by decide, by norm_num, by norm_num, ?_, ?_, ?_⟩
  · rw [show (([65, 65, 65] : List Int).take 1).map (advOf sampleRenderer.offsets) =
        [advOf sampleRenderer.offsets 65] from rfl, hadv]
    norm_num
  · rw [show (([65, 65, 65] : List Int).take 2).map (advOf sampleRenderer.offsets) =
        [advOf sampleRenderer.offsets 65, advOf sampleRenderer.offsets 65] from rfl, hadv]
    norm_num
  · exact claim2_printf_draw_protocol sampleRenderer 5 7 [65, 65, 65]
      (by decide) (by decide)

/-! ## C10 -/

/-- C10: `Printf` has no range guard; it completes without a runtime panic
exactly when every character of the formatted string lies in 32..127 (for a
renderer whose advance table has the 96 entries `NewFont` builds).  A
character below 32 or above 127 makes `this.offsets[ch-32]` an out-of-bounds
slice access. -/
theorem claim10_unguarded_lookup (f : Font) (x y : ℚ) (s : List Int)
    (hlen : f.offsets.length = 96) :
    (printf f x y s).isSome = true ↔ ∀ ch ∈ s, 32 ≤ ch ∧ ch ≤ 127 := by
  have hloop := printfLoop_isSome f.offsetUniform f.offsets x y s 0
  have hsame : (printf f x y s).isSome =
      (printfLoop f.offsetUniform f.offsets x y s 0).isSome := by
    unfold printf
    cases printfLoop f.offsetUniform f.offsets x y s 0 <;> rfl
  rw [hsame, hloop]
  constructor
  · intro hall ch hc
    have := hall ch hc
    rw [hlen] at this
    omega
  · intro hall ch hc
    have := hall ch hc
    rw [hlen]
    omega

/-- Witness for C10: "A" draws fine; a newline (code 10) panics. -/
theorem claim10_unguarded_lookup_witness :
    sampleRenderer.offsets.length = 96 ∧
    (printf sampleRenderer 0 0 [65]).isSome = true ∧
    (printf sampleRenderer 0 0 [10]).isSome = false :=
  ⟨by decide,
   (claim10_unguarded_lookup sampleRenderer 0 0 [65] (by decide)).mpr (by decide),
   by
    have h := claim10_unguarded_lookup sampleRenderer 0 0 [10] (by decide)
    have hnot : ¬ ((printf sampleRenderer 0 0 [10]).isSome = true) := by
      intro habs
      have := h.mp habs 10 (by decide)
      omega
    exact Bool.eq_false_iff.mpr hnot⟩

/-! ## C8 -/

/-- C8: every `Printf` call brackets its work between enabling source-over
alpha blending and disabling blending: the trace starts with
`Enable(BLEND); BlendFunc(SRC_ALPHA, ONE_MINUS_SRC_ALPHA)`, ends with
`Disable(BLEND)`, and leaves the blend state disabled from any prior state;
an empty formatted string issues zero draws and its trace is exactly the
header followed by the footer. -/
theorem claim8_blend_bracket (f : Font) (x y : ℚ) (s : List Int)
    (cmds : List GLCmd) (h : printf f x y s = some cmds) :
    (∃ mid, cmds = GLCmd.enable BLEND ::
        GLCmd.blendFunc SRC_ALPHA ONE_MINUS_SRC_ALPHA :: mid ++
        [GLCmd.disable BLEND]) ∧
    (∀ b, runBlend b cmds = false) ∧
    (s = [] → drawCount cmds = 0 ∧ cmds = printfHeader f ++ printfFooter) := by
  unfold printf at h
  cases hb : printfLoop f.offsetUniform f.offsets x y s 0 with
  | none =>
    rw [hb] at h
    exact absurd h (by simp)
  | some body =>
    rw [hb] at h
    have hc : cmds = printfHeader f ++ body ++ printfFooter :=
      (Option.some_inj.mp h).symm
    subst hc
    refine ⟨⟨[GLCmd.useProgram f.program, GLCmd.bindVertexArray f.vao,
              GLCmd.uniform4fv f.colorUniform 1 f.color] ++ body ++
              [GLCmd.unbindVertexArray, GLCmd.unuseProgram], ?_⟩, ?_, ?_⟩
    · simp [printfHeader, printfFooter]
    · intro b
      rw [runBlend_append]
      rfl
    · intro hs0
      subst hs0
      have hbody : body = [] := by
        have hb0 : (some ([] : List GLCmd)) = some body := hb
        exact (Option.some_inj.mp hb0).symm
      subst hbody
      constructor
      · rfl
      · simp

/-- Witness for C8: the empty string on the sample renderer emits exactly the
blend-bracketed header and footer, with no draws and blending left
disabled. -/
theorem claim8_blend_bracket_witness :
    printf sampleRenderer 0 0 [] =
      some (printfHeader sampleRenderer ++ [] ++ printfFooter) ∧
    runBlend true (printfHeader sampleRenderer ++ [] ++ printfFooter) = false ∧
    drawCount (printfHeader sampleRenderer ++ [] ++ printfFooter) = 0 :=
  ⟨rfl,
   (claim8_blend_bracket sampleRenderer 0 0 []
      (printfHeader sampleRenderer ++ [] ++ printfFooter) rfl).2.1 true,
   ((claim8_blend_bracket sampleRenderer 0 0 []
      (printfHeader sampleRenderer ++ [] ++ printfFooter) rfl).2.2 rfl).1⟩

/-! ## C7 -/

/-- C7: `generateAtlas` is deterministic — two runs on the same font, scale,
dpi and viewport inputs produce identical vertex sequences and identical
advance tables (the embedded computation is a pure function of exactly these
inputs). -/
theorem claim7_deterministic (font : TTFont) (scale : Int) (dpi W H : ℚ)
    (a₁ a₂ : Atlas)
    (h₁ : a₁ = generateAtlas font scale dpi W H)
    (h₂ : a₂ = generateAtlas font scale dpi W H) :
    a₁.verts = a₂.verts ∧ a₁.offsets = a₂.offsets ∧ a₁ = a₂ := by
  subst h₁
  subst h₂
  exact ⟨rfl, rfl, rfl⟩

/-- Witness for C7 at concrete inputs. -/
theorem claim7_deterministic_witness :
    (generateAtlas sampleFont 16 72 640 480 = generateAtlas sampleFont 16 72 640 480) ∧
    ((generateAtlas sampleFont 16 72 640 480).verts =
        (generateAtlas sampleFont 16 72 640 480).verts ∧
      (generateAtlas sampleFont 16 72 640 480).offsets =
        (generateAtlas sampleFont 16 72 640 480).offsets ∧
      generateAtlas sampleFont 16 72 640 480 = generateAtlas sampleFont 16 72 640 480) :=
  ⟨rfl, claim7_deterministic sampleFont 16 72 640 480 _ _ rfl rfl⟩

/-! ## C9 -/

/-- C9 (against the code as written): `Delete` emits exactly five release
commands — two `DeleteShader` calls, `DeleteProgram`, `DeleteBuffer`,
`DeleteVertexArray` — and never a texture release; but because the struct
literal in `NewFont` leaves `vs` and `fs` unassigned, the two shader
deletions target handle 0, not the shader stages (here 5 and 6) that
`createProgram` actually created, so the renderer's shader stages are never
released. -/
theorem claim9_delete_trace :
    sampleRenderer.Delete =
      [GLCmd.deleteShader 0, GLCmd.deleteShader 0, GLCmd.deleteProgram 7,
       GLCmd.deleteBuffer 4, GLCmd.deleteVertexArray 3] ∧
    GLCmd.deleteShader 5 ∉ sampleRenderer.Delete ∧
    GLCmd.deleteShader 6 ∉ sampleRenderer.Delete ∧
    sampleRenderer.Delete.all (fun c => !(isDeleteTexture c)) = true := by
  decide

end Gltext
